import Mathlib

/-!
Verification of the SQL safety-gate and execution engine of the
FinancialAssistant repository (src/sql_query_tool.py).

The Python class SQLQueryTool is embedded shallowly: SQL statements are
lists of characters, the sqlite3 driver is an abstract `Driver` value
returning either an error or a pair of (column description, rows), and
`validate_sql` / `execute_query` are translated line by line from the
source.  Python string helpers (`upper`, `strip`, `rstrip`, `in`,
`startswith`, `count`) are modelled on `List Char`.
-/

namespace FinAssistant

/-- The single-quote character (ASCII 39). -/
def quoteChar : Char := Char.ofNat 39

/-- The double-quote character (ASCII 34). -/
def dquoteChar : Char := Char.ofNat 34

/-- Python `str` whitespace characters (the ASCII ones, which is what the
statements handled by the tool contain): space, tab, newline, vertical
tab, form feed, carriage return. -/
def isPySpace (c : Char) : Bool :=
  c == ' ' || c == '\t' || c == '\n' || c == '\x0b' || c == '\x0c' || c == '\r'

/-- The list of Python whitespace characters, used to model the regex
class from the forbidden patterns. -/
def pySpaceChars : List Char := [' ', '\t', '\n', '\x0b', '\x0c', '\r']

/-- Python `s.upper()` (ASCII case mapping). -/
def pyUpper (s : List Char) : List Char := s.map Char.toUpper

/-- Python `s.lstrip(<set p>)`: drop the maximal prefix of characters
satisfying `p`. -/
def pyLstripWith (p : Char → Bool) (s : List Char) : List Char := s.dropWhile p

/-- Python `s.rstrip(<set p>)`: drop the maximal suffix of characters
satisfying `p`. -/
def pyRstripWith (p : Char → Bool) (s : List Char) : List Char :=
  (s.reverse.dropWhile p).reverse

/-- Python `s.strip()`: remove leading and trailing whitespace. -/
def pyStrip (s : List Char) : List Char :=
  pyRstripWith isPySpace (pyLstripWith isPySpace s)

/-- Python `s.startswith(pat)` on character lists. -/
def isPrefixChars : List Char → List Char → Bool
  | [], _ => true
  | _ :: _, [] => false
  | a :: as, b :: bs => a == b && isPrefixChars as bs

/-- Python `pat in s`: `pat` occurs as a contiguous substring of `s`. -/
def containsSub (pat : List Char) : List Char → Bool
  | [] => pat.isEmpty
  | c :: t => isPrefixChars pat (c :: t) || containsSub pat t

/-- The character predicate for `rstrip(';')` in `execute_query`. -/
def isSemiChar (c : Char) : Bool := c == ';'

/-- A forbidden regex pattern from `SQLQueryTool.forbidden_patterns`.
`kwSpace kw src` models a raw pattern `kw\s+` (a keyword followed by at
least one whitespace character); `literal lit src` models a pattern that
is a plain substring match.  `src` is the regex source text used in the
rejection message. -/
inductive FPattern where
  | kwSpace (kw : List Char) (src : List Char)
  | literal (lit : List Char) (src : List Char)

/-- The regex source text of a forbidden pattern, as interpolated into
the rejection reason by `validate_sql`. -/
def FPattern.source : FPattern → List Char
  | .kwSpace _ s => s
  | .literal _ s => s

/-- Python `re.search(pattern, s)` as a Boolean, for the two pattern
shapes occurring in `forbidden_patterns`.  A `kw\s+` pattern matches
exactly when `kw` followed by some whitespace character occurs in `s`. -/
def FPattern.matchesIn : FPattern → List Char → Bool
  | .kwSpace kw _, s => pySpaceChars.any (fun c => containsSub (kw ++ [c]) s)
  | .literal lit _, s => containsSub lit s

/-- `SQLQueryTool.forbidden_patterns`, in source order.  Note that the
`xp_` and `sp_` entries are lower-case, exactly as in the source. -/
def forbidden_patterns : List FPattern :=
  [ .kwSpace "DROP".toList "DROP\\s+".toList,
    .kwSpace "DELETE".toList "DELETE\\s+".toList,
    .kwSpace "INSERT".toList "INSERT\\s+".toList,
    .kwSpace "UPDATE".toList "UPDATE\\s+".toList,
    .kwSpace "ALTER".toList "ALTER\\s+".toList,
    .kwSpace "CREATE".toList "CREATE\\s+".toList,
    .kwSpace "EXEC".toList "EXEC\\s+".toList,
    .kwSpace "UNION".toList "UNION\\s+".toList,
    .literal "--".toList "--".toList,
    .literal "/*".toList "/\\*".toList,
    .literal "xp_".toList "xp_".toList,
    .literal "sp_".toList "sp_".toList ]

/-- The first forbidden pattern (in source order) matching `s`, if any,
projected to its regex source text — models the `for pattern in
self.forbidden_patterns: if re.search(pattern, sql_upper)` loop. -/
def findForbidden (s : List Char) : Option (List Char) :=
  (forbidden_patterns.find? (fun p => p.matchesIn s)).map FPattern.source

/-- Rejection message of the first validator rule. -/
def onlySelectMsg : List Char := "Only SELECT queries are allowed".toList

/-- Prefix of the rejection message of the forbidden-pattern rule. -/
def forbiddenMsgPrefix : List Char := "Forbidden SQL pattern detected: ".toList

/-- Rejection message of the table-allowlist rule (the source text quotes
the two table names in single quotes). -/
def tableMsg : List Char :=
  "Query must use ".toList ++ [quoteChar] ++ "transactions".toList ++ [quoteChar] ++
  " or ".toList ++ [quoteChar] ++ "client_summary".toList ++ [quoteChar] ++ " table".toList

/-- Rejection message of the quote-parity rule. -/
def quotesMsg : List Char := "Unmatched quotes detected".toList

/-- The success message of `validate_sql`. -/
def validatedMsg : List Char := "Query validated successfully".toList

/-- The local `suspicious_chars` list computed (but never consulted) by
`validate_sql` in the source. -/
def suspicious_chars : List Char := [';', dquoteChar, quoteChar]

/-- `SQLQueryTool.validate_sql`, translated rule for rule from the
source: upper-case and strip; require a `SELECT` prefix; scan the
forbidden patterns against the upper-cased text; require `FROM
TRANSACTIONS` or `FROM CLIENT_SUMMARY` as a substring; require an even
number of single quotes in the raw statement. -/
def sql_upper_of (sql : List Char) : List Char := pyStrip (pyUpper sql)

def validate_sql (sql : List Char) : Bool × List Char :=
  if isPrefixChars "SELECT".toList (sql_upper_of sql) = false then
    (false, onlySelectMsg)
  else
    match findForbidden (sql_upper_of sql) with
    | some src => (false, forbiddenMsgPrefix ++ src)
    | none =>
      if (containsSub "FROM TRANSACTIONS".toList (sql_upper_of sql) ||
          containsSub "FROM CLIENT_SUMMARY".toList (sql_upper_of sql)) = false then
        (false, tableMsg)
      else if sql.count quoteChar % 2 != 0 then
        (false, quotesMsg)
      else
        (true, validatedMsg)

/-- `SQLQueryTool.max_results`, the fixed row cap. -/
def max_results : Nat := 1000

/-- The statement after `sql.rstrip(';').strip()` in `execute_query`. -/
def sql_clean_of (sql : List Char) : List Char :=
  pyStrip (pyRstripWith isSemiChar sql)

/-- The statement actually handed to the driver: `sql_clean` with
` LIMIT 1000` appended when the upper-cased cleaned statement does not
contain `LIMIT`, and `sql_clean` unchanged otherwise. -/
def limited_sql_of (sql : List Char) : List Char :=
  if containsSub "LIMIT".toList (pyUpper (sql_clean_of sql)) = false then
    sql_clean_of sql ++ " LIMIT ".toList ++ (toString max_results).toList
  else
    sql_clean_of sql

/-- A fault raised by the driver inside the `try` block of
`execute_query`: either a `sqlite3.Error` or any other exception. -/
inductive PyError where
  | sqliteError (msg : List Char)
  | unexpectedError (msg : List Char)

/-- The error message `execute_query` builds for a caught fault. -/
def pyErrorMessage : PyError → List Char
  | .sqliteError m => "SQL Execution Error: ".toList ++ m
  | .unexpectedError m => "Unexpected Error: ".toList ++ m

/-- The sqlite3 connection/cursor, abstracted: running one statement
yields either a fault or a pair of the cursor description (column names
in result order) and the fetched rows (each a list of values in column
order).  `V` is the type of cell values. -/
structure Driver (V : Type) where
  run : List Char → Except PyError (List (List Char) × List (List V))

/-- The dictionary returned by `execute_query`, with `Option` fields for
the keys that are present only in one of the two outcome shapes. -/
structure QueryOutcome (V : Type) where
  success : Bool
  query : List Char
  error : Option (List Char)
  results : List (List (List Char × V))
  column_names : Option (List (List Char))
  row_count : Option Nat
  limited : Option Bool

/-- The failure dictionary shape of `execute_query`: an error message,
the original statement, and an empty result list. -/
def failureOutcome (V : Type) (err sql : List Char) : QueryOutcome V :=
  { success := false, query := sql, error := some err, results := [],
    column_names := none, row_count := none, limited := none }

/-- `SQLQueryTool.execute_query`: validate, on rejection return the
validation-failure dictionary; otherwise strip trailing semicolons and
whitespace, append the cap unless `LIMIT` is already present, run the
statement, convert any fault into the execution-failure dictionary, and
on success return rows as ordered column-to-value mappings together with
column names, row count and the truncation flag. -/
def execute_query {V : Type} (drv : Driver V) (sql : List Char) : QueryOutcome V :=
  match validate_sql sql with
  | (false, msg) =>
      failureOutcome V ("SQL Validation Failed: ".toList ++ msg) sql
  | (true, _) =>
      match drv.run (limited_sql_of sql) with
      | .error e => failureOutcome V (pyErrorMessage e) sql
      | .ok (desc, rows) =>
          let results := rows.map (fun r => desc.zip r)
          { success := true, query := sql, error := none, results := results,
            column_names := some (if rows.isEmpty then [] else desc),
            row_count := some results.length,
            limited := some (results.length == max_results) }

/-! Helper lemmas about the Python string-operation models. -/

theorem isPrefixChars_iff (p s : List Char) :
    isPrefixChars p s = true ↔ ∃ t, s = p ++ t := by
  induction p generalizing s with
  | nil => simp [isPrefixChars]
  | cons a as ih =>
    cases s with
    | nil =>
      simp [isPrefixChars]
    | cons b bs =>
      simp only [isPrefixChars, Bool.and_eq_true, beq_iff_eq]
      constructor
      · rintro ⟨rfl, h⟩
        obtain ⟨t, rfl⟩ := (ih bs).mp h
        exact ⟨t, rfl⟩
      · rintro ⟨t, h⟩
        rw [List.cons_append] at h
        injection h with h1 h2
        exact ⟨h1.symm, (ih bs).mpr ⟨t, h2⟩⟩

theorem containsSub_iff (p s : List Char) :
    containsSub p s = true ↔ ∃ a b, s = a ++ (p ++ b) := by
  induction s with
  | nil =>
    simp only [containsSub, List.isEmpty_iff]
    constructor
    · rintro rfl; exact ⟨[], [], rfl⟩
    · rintro ⟨a, b, h⟩
      rcases List.append_eq_nil.mp h.symm with ⟨rfl, h2⟩
      rcases List.append_eq_nil.mp h2 with ⟨rfl, rfl⟩
      rfl
  | cons c t ih =>
    simp only [containsSub, Bool.or_eq_true]
    constructor
    · rintro (h | h)
      · obtain ⟨u, hu⟩ := (isPrefixChars_iff p (c :: t)).mp h
        exact ⟨[], u, hu⟩
      · obtain ⟨a, b, rfl⟩ := ih.mp h
        exact ⟨c :: a, b, rfl⟩
    · rintro ⟨a, b, h⟩
      cases a with
      | nil =>
        exact Or.inl ((isPrefixChars_iff p (c :: t)).mpr ⟨b, by simpa using h⟩)
      | cons a0 as =>
        rw [List.cons_append] at h
        injection h with h1 h2
        exact Or.inr (ih.mpr ⟨as, b, h2⟩)

theorem containsSub_nil_left (s : List Char) : containsSub [] s = true := by
  cases s with
  | nil => rfl
  | cons c t => simp [containsSub, isPrefixChars]

theorem containsSub_of_middle (p a s b : List Char)
    (h : containsSub p s = true) : containsSub p (a ++ (s ++ b)) = true := by
  obtain ⟨x, y, rfl⟩ := (containsSub_iff p s).mp h
  exact (containsSub_iff p _).mpr ⟨a ++ x, y ++ b, by simp⟩

theorem containsSub_reverse_iff (p s : List Char) :
    containsSub p.reverse s.reverse = true ↔ containsSub p s = true := by
  constructor
  · intro h
    obtain ⟨a, b, h⟩ := (containsSub_iff _ _).mp h
    refine (containsSub_iff p s).mpr ⟨b.reverse, a.reverse, ?_⟩
    have := congrArg List.reverse h
    simpa [List.reverse_append] using this
  · intro h
    obtain ⟨a, b, rfl⟩ := (containsSub_iff _ _).mp h
    exact (containsSub_iff _ _).mpr ⟨b.reverse, a.reverse, by simp⟩

theorem containsSub_unaffixL (p w s : List Char)
    (hw : ∀ c ∈ w, c ∈ p → False) :
    containsSub p (w ++ s) = true → containsSub p s = true := by
  induction w with
  | nil => exact fun h => h
  | cons d w' ih =>
    intro h
    simp only [List.cons_append, containsSub, Bool.or_eq_true] at h
    rcases h with h | h
    · obtain ⟨t, ht⟩ := (isPrefixChars_iff p _).mp h
      cases p with
      | nil => exact containsSub_nil_left s
      | cons e p' =>
        rw [List.cons_append] at ht
        injection ht with h1 _
        exact absurd (h1 ▸ List.mem_cons_self e p')
          (fun hm => hw d (List.mem_cons_self d w') hm)
    · exact ih (fun c hc => hw c (List.mem_cons_of_mem d hc)) h

theorem containsSub_unaffixR (p s t : List Char)
    (ht : ∀ c ∈ t, c ∈ p → False) :
    containsSub p (s ++ t) = true → containsSub p s = true := by
  intro h
  have h1 : containsSub p.reverse (t.reverse ++ s.reverse) = true := by
    have := (containsSub_reverse_iff p (s ++ t)).mpr h
    simpa [List.reverse_append] using this
  have h2 := containsSub_unaffixL p.reverse t.reverse s.reverse
    (fun c hc hm => ht c (List.mem_reverse.mp hc) (List.mem_reverse.mp hm)) h1
  exact (containsSub_reverse_iff p s).mp h2

theorem dropWhile_head_not {p : Char → Bool} (l : List Char) :
    ∀ {c t}, l.dropWhile p = c :: t → p c = false := by
  induction l with
  | nil => intro c t h; simp [List.dropWhile] at h
  | cons a l ih =>
    intro c t h
    by_cases ha : p a = true
    · rw [List.dropWhile_cons, if_pos ha] at h
      exact ih h

    · rw [List.dropWhile_cons, if_neg ha] at h
      injection h with h1 _
      rw [← h1]
      exact Bool.eq_false_iff.mpr ha

theorem dropWhile_snoc {p : Char → Bool} (u : List Char) {c : Char}
    (hc : p c = false) : (u ++ [c]).dropWhile p = u.dropWhile p ++ [c] := by
  induction u with
  | nil => simp [List.dropWhile, hc]
  | cons a u ih =>
    by_cases ha : p a = true
    · simp [List.dropWhile_cons, ha, ih]
    · simp [List.dropWhile_cons, ha]

theorem lstrip_decomp (p : Char → Bool) (s : List Char) :
    ∃ a, s = a ++ pyLstripWith p s ∧ ∀ c ∈ a, p c = true := by
  refine ⟨s.takeWhile p, ?_, fun c hc => List.mem_takeWhile_imp hc⟩
  have h : s.takeWhile p ++ s.dropWhile p = s := List.takeWhile_append_dropWhile p s
  unfold pyLstripWith
  exact h.symm

theorem rstrip_decomp (p : Char → Bool) (s : List Char) :
    ∃ b, s = pyRstripWith p s ++ b ∧ ∀ c ∈ b, p c = true := by
  refine ⟨(s.reverse.takeWhile p).reverse, ?_, ?_⟩
  · have h : s.reverse.takeWhile p ++ s.reverse.dropWhile p = s.reverse :=
      List.takeWhile_append_dropWhile p s.reverse
    have h2 := congrArg List.reverse h
    rw [List.reverse_append, List.reverse_reverse] at h2
    unfold pyRstripWith
    exact h2.symm
  · intro c hc
    exact List.mem_takeWhile_imp (List.mem_reverse.mp hc)

theorem rstrip_last {p : Char → Bool} {s l : List Char} {c : Char}
    (h : pyRstripWith p s = l ++ [c]) : p c = false := by
  unfold pyRstripWith at h
  have h2 := congrArg List.reverse h
  rw [List.reverse_reverse, List.reverse_append] at h2
  simp only [List.reverse_cons, List.reverse_nil, List.nil_append,
    List.singleton_append] at h2
  exact dropWhile_head_not _ h2

theorem rstrip_snoc {p : Char → Bool} (u : List Char) {c : Char}
    (hc : p c = false) : pyRstripWith p (u ++ [c]) = u ++ [c] := by
  unfold pyRstripWith
  rw [List.reverse_append]
  simp only [List.reverse_cons, List.reverse_nil, List.nil_append,
    List.singleton_append, List.dropWhile_cons, hc]
  simp

theorem pyStrip_head {s t : List Char} {c : Char} (h : pyStrip s = c :: t) :
    isPySpace c = false := by
  obtain ⟨b, hb, _⟩ := rstrip_decomp isPySpace (pyLstripWith isPySpace s)
  rw [show pyRstripWith isPySpace (pyLstripWith isPySpace s) = pyStrip s from rfl,
    h] at hb
  unfold pyLstripWith at hb
  rw [List.cons_append] at hb
  exact dropWhile_head_not _ hb

theorem pyStrip_last {s l : List Char} {c : Char} (h : pyStrip s = l ++ [c]) :
    isPySpace c = false :=
  rstrip_last h

theorem sqlClean_decomp (sql : List Char) :
    ∃ w1 w2 semis, sql = w1 ++ (sql_clean_of sql ++ (w2 ++ semis)) ∧
      (∀ c ∈ w1, isPySpace c = true) ∧
      (∀ c ∈ w2, isPySpace c = true) ∧
      (∀ c ∈ semis, c = ';') ∧
      (∀ c t, sql_clean_of sql = c :: t → isPySpace c = false) ∧
      (∀ l c, sql_clean_of sql = l ++ [c] → isPySpace c = false) ∧
      (w2 = [] → ∀ l c, sql_clean_of sql = l ++ [c] → c = ';' → False) := by
  obtain ⟨semis, hsem, hsemP⟩ := rstrip_decomp isSemiChar sql
  obtain ⟨w1, hw1, hw1P⟩ := lstrip_decomp isPySpace (pyRstripWith isSemiChar sql)
  obtain ⟨w2, hw2, hw2P⟩ :=
    rstrip_decomp isPySpace (pyLstripWith isPySpace (pyRstripWith isSemiChar sql))
  refine ⟨w1, w2, semis, ?_, hw1P, hw2P, ?_, ?_, ?_, ?_⟩
  · have e1 : sql_clean_of sql =
        pyRstripWith isPySpace (pyLstripWith isPySpace (pyRstripWith isSemiChar sql)) :=
      rfl
    rw [e1]
    conv_lhs => rw [hsem, hw1, hw2]
    simp [List.append_assoc]
  · intro c hc
    have := hsemP c hc
    unfold isSemiChar at this
    exact beq_iff_eq.mp this
  · intro c t h
    exact pyStrip_head h
  · intro l c h
    exact pyStrip_last h
  · rintro rfl l c h hc
    rw [List.append_nil] at hw2
    have hls : pyLstripWith isPySpace (pyRstripWith isSemiChar sql) = l ++ [c] := by
      rw [hw2]
      exact h
    have hr : pyRstripWith isSemiChar sql = (w1 ++ l) ++ [c] := by
      rw [hw1, hls, List.append_assoc]
    have := rstrip_last hr
    unfold isSemiChar at this
    rw [hc] at this
    simp at this

theorem containsSub_snoc_ne (p u : List Char) (c : Char)
    (h1 : p ≠ []) (h2 : p.getLast? ≠ some c) :
    containsSub p (u ++ [c]) = containsSub p u := by
  have bwd : containsSub p u = true → containsSub p (u ++ [c]) = true := by
    intro h
    obtain ⟨a, b, rfl⟩ := (containsSub_iff p u).mp h
    exact (containsSub_iff p _).mpr ⟨a, b ++ [c], by simp⟩
  have fwd : containsSub p (u ++ [c]) = true → containsSub p u = true := by
    intro h
    obtain ⟨a, b, hab⟩ := (containsSub_iff p _).mp h
    rcases List.eq_nil_or_concat b with rfl | ⟨b', x, hb⟩
    · rcases List.eq_nil_or_concat p with rfl | ⟨q, y, hp⟩
      · exact absurd rfl h1
      · rw [List.concat_eq_append] at hp
        subst hp
        rw [List.append_nil] at hab
        have hab2 : u ++ [c] = (a ++ q) ++ [y] := by
          rw [hab, List.append_assoc]
        obtain ⟨h3, h4⟩ := List.append_inj' hab2 rfl
        injection h4 with h5 _
        refine absurd ?_ h2
        rw [List.getLast?_concat]
        exact congrArg some h5.symm
    · rw [List.concat_eq_append] at hb
      subst hb
      have hab2 : u ++ [c] = (a ++ (p ++ b')) ++ [x] := by
        rw [hab]
        simp [List.append_assoc]
      obtain ⟨h3, _⟩ := List.append_inj' hab2 rfl
      exact (containsSub_iff p u).mpr ⟨a, b', h3⟩
  cases hcu : containsSub p u with
  | false =>
    cases hcc : containsSub p (u ++ [c]) with
    | false => rfl
    | true => exact absurd (fwd hcc) (by simp [hcu])
  | true => rw [bwd hcu]

theorem isPrefixChars_append_inv :
    ∀ p x : List Char, (∀ ch ∈ x, ch ∈ p → False) →
      ∀ u, isPrefixChars p (u ++ x) = isPrefixChars p u := by
  intro p
  induction p with
  | nil => intro x hx u; rfl
  | cons a as ih =>
    intro x hx u
    cases u with
    | nil =>
      cases x with
      | nil => rfl
      | cons d xs =>
        have had : (a == d) = false := by
          apply beq_eq_false_iff_ne.mpr
          intro h
          refine hx d (List.mem_cons_self d xs) ?_
          rw [← h]
          exact List.mem_cons_self a as
        show isPrefixChars (a :: as) (d :: xs) = false
        simp [isPrefixChars, had]
    | cons b us =>
      show isPrefixChars (a :: as) (b :: (us ++ x)) = isPrefixChars (a :: as) (b :: us)
      simp only [isPrefixChars]
      rw [ih x (fun ch hc hm => hx ch hc (List.mem_cons_of_mem a hm)) us]

theorem list_any_congr {α : Type} (l : List α) (f g : α → Bool)
    (h : ∀ x ∈ l, f x = g x) : l.any f = l.any g := by
  induction l with
  | nil => rfl
  | cons a l ih =>
    simp only [List.any_cons]
    rw [h a (List.mem_cons_self a l),
      ih (fun x hx => h x (List.mem_cons_of_mem a hx))]

theorem list_find?_congr {α : Type} (l : List α) (f g : α → Bool)
    (h : ∀ x ∈ l, f x = g x) : l.find? f = l.find? g := by
  induction l with
  | nil => rfl
  | cons a l ih =>
    have h1 := h a (List.mem_cons_self a l)
    have ih2 := ih (fun x hx => h x (List.mem_cons_of_mem a hx))
    cases hg : g a with
    | true =>
      rw [List.find?_cons_of_pos _ (by rw [h1, hg]), List.find?_cons_of_pos _ hg]
    | false =>
      rw [List.find?_cons_of_neg _ (by simp [h1, hg]),
        List.find?_cons_of_neg _ (by simp [hg])]
      exact ih2

theorem toUpper_of_pySpace {c : Char} (h : isPySpace c = true) :
    Char.toUpper c = c := by
  simp only [isPySpace, Bool.or_eq_true, beq_iff_eq] at h
  rcases h with ((((h | h) | h) | h) | h) | h <;> subst h <;> decide

theorem pyUpper_append (a b : List Char) :
    pyUpper (a ++ b) = pyUpper a ++ pyUpper b := by
  unfold pyUpper
  exact List.map_append Char.toUpper a b

theorem pyUpper_of_all_ws {w : List Char} (h : ∀ c ∈ w, isPySpace c = true) :
    pyUpper w = w := by
  unfold pyUpper
  have h2 : List.map Char.toUpper w = List.map id w :=
    List.map_congr_left (fun a ha => toUpper_of_pySpace (h a ha))
  rw [h2, List.map_id]

theorem pyUpper_of_all_semi {w : List Char} (h : ∀ c ∈ w, c = ';') :
    pyUpper w = w := by
  unfold pyUpper
  have h2 : List.map Char.toUpper w = List.map id w :=
    List.map_congr_left (fun a ha => by rw [h a ha]; decide)
  rw [h2, List.map_id]

theorem limitChars_not_ws_semi :
    ∀ c ∈ "LIMIT".toList, isPySpace c = false ∧ (c = ';' → False) := by decide

theorem containsSub_LIMIT_clean (sql : List Char) :
    containsSub "LIMIT".toList (pyUpper (sql_clean_of sql)) =
    containsSub "LIMIT".toList (pyUpper sql) := by
  obtain ⟨w1, w2, semis, hdec, hw1, hw2, hsem, _, _, _⟩ := sqlClean_decomp sql
  have hup : pyUpper sql =
      w1 ++ (pyUpper (sql_clean_of sql) ++ (w2 ++ semis)) := by
    conv_lhs => rw [hdec]
    rw [pyUpper_append, pyUpper_append, pyUpper_append,
      pyUpper_of_all_ws hw1, pyUpper_of_all_ws hw2, pyUpper_of_all_semi hsem]
  have fwd : containsSub "LIMIT".toList (pyUpper (sql_clean_of sql)) = true →
      containsSub "LIMIT".toList (pyUpper sql) = true := by
    intro h
    rw [hup]
    exact containsSub_of_middle _ _ _ _ h
  have bwd : containsSub "LIMIT".toList (pyUpper sql) = true →
      containsSub "LIMIT".toList (pyUpper (sql_clean_of sql)) = true := by
    intro h
    rw [hup] at h
    have h2 := containsSub_unaffixL _ w1 _
      (fun c hc hm => by
        have hx := (limitChars_not_ws_semi c hm).1
        rw [hw1 c hc] at hx
        simp at hx) h
    exact containsSub_unaffixR _ _ (w2 ++ semis)
      (fun c hc hm => by
        rcases List.mem_append.mp hc with hcw | hcs
        · have hx := (limitChars_not_ws_semi c hm).1
          rw [hw2 c hcw] at hx
          simp at hx
        · exact (limitChars_not_ws_semi c hm).2 (hsem c hcs)) h2
  cases h1 : containsSub "LIMIT".toList (pyUpper sql) with
  | true => exact bwd h1
  | false =>
    cases h2 : containsSub "LIMIT".toList (pyUpper (sql_clean_of sql)) with
    | true =>
      have h3 := fwd h2
      rw [h1] at h3
      simp at h3
    | false => rfl

theorem validate_sql_of_fst_true (sql : List Char) :
    (validate_sql sql).1 = true → validate_sql sql = (true, validatedMsg) := by
  intro h
  unfold validate_sql at h ⊢
  by_cases h1 : isPrefixChars "SELECT".toList (sql_upper_of sql) = false
  · simp only [if_pos h1] at h
    simp at h
  · simp only [if_neg h1] at h ⊢
    cases hf : findForbidden (sql_upper_of sql) with
    | some src =>
      simp only [hf] at h
      simp at h
    | none =>
      simp only [hf] at h ⊢
      by_cases h2 : (containsSub "FROM TRANSACTIONS".toList (sql_upper_of sql) ||
          containsSub "FROM CLIENT_SUMMARY".toList (sql_upper_of sql)) = false
      · simp only [if_pos h2] at h
        simp at h
      · simp only [if_neg h2] at h ⊢
        by_cases h3 : (sql.count quoteChar % 2 != 0) = true
        · simp only [if_pos h3] at h
          simp at h
        · simp only [if_neg h3]

theorem execute_query_invalid {V : Type} (drv : Driver V) (sql m : List Char)
    (hv : validate_sql sql = (false, m)) :
    execute_query drv sql =
      failureOutcome V ("SQL Validation Failed: ".toList ++ m) sql := by
  unfold execute_query
  rw [hv]

theorem execute_query_err {V : Type} (drv : Driver V) (sql m : List Char)
    (e : PyError) (hv : validate_sql sql = (true, m))
    (he : drv.run (limited_sql_of sql) = .error e) :
    execute_query drv sql = failureOutcome V (pyErrorMessage e) sql := by
  unfold execute_query
  rw [hv, he]

theorem execute_query_ok {V : Type} (drv : Driver V) (sql m : List Char)
    (desc : List (List Char)) (rows : List (List V))
    (hv : validate_sql sql = (true, m))
    (hr : drv.run (limited_sql_of sql) = .ok (desc, rows)) :
    execute_query drv sql =
      { success := true, query := sql, error := none,
        results := rows.map (fun r => desc.zip r),
        column_names := some (if rows.isEmpty then [] else desc),
        row_count := some (rows.map (fun r => desc.zip r)).length,
        limited := some ((rows.map (fun r => desc.zip r)).length == max_results) } := by
  unfold execute_query
  rw [hv, hr]

theorem validate_sql_pair_of_false (sql : List Char)
    (h : (validate_sql sql).1 = false) :
    validate_sql sql = (false, (validate_sql sql).2) := by
  rw [← h]

/-- A driver that returns no rows and an empty description, as sqlite
does for a query matching nothing. -/
def emptyDriver : Driver Nat := ⟨fun _ => Except.ok ([], [])⟩

/-- A driver that always raises `sqlite3.Error`, as sqlite does for an
unknown column. -/
def errDriver : Driver Nat :=
  ⟨fun _ => Except.error (PyError.sqliteError "no such column: foo".toList)⟩

/-- A driver that returns one `amt` column and two rows. -/
def twoRowsDriver : Driver Nat := ⟨fun _ => Except.ok (["amt".toList], [[1], [2]])⟩

/-- C2: the spec and the source's own `forbidden_patterns` list demand
that statements containing `xp_` or `sp_` be rejected, but `re.search`
is case-sensitive and these two patterns are lower-case while they are
searched in the upper-cased statement, so they can never match:
`validate_sql` admits `SELECT xp_cmdshell FROM transactions` and
`SELECT sp_help FROM transactions`. -/
theorem c2_forbidden_xp_admitted :
    validate_sql "SELECT xp_cmdshell FROM transactions".toList = (true, validatedMsg) ∧
    validate_sql "SELECT sp_help FROM transactions".toList = (true, validatedMsg) := by
  exact ⟨by decide, by decide⟩

/-- C3 (counterexample): `SELECT * FROM transactionsx` has a `FROM`
clause naming the table `transactionsx`, which is neither `transactions`
nor `client_summary`, yet `validate_sql` admits it, because the table
rule is a substring check and `FROM TRANSACTIONSX` contains
`FROM TRANSACTIONS`.  This refutes the claim that every SELECT statement
whose FROM clause names a table outside the allowlist is rejected. -/
theorem c3_table_allowlist_counterexample :
    (validate_sql "SELECT * FROM transactionsx".toList).1 = true := by decide

/-- C3 (amended): for a statement that passes the SELECT-prefix and
forbidden-pattern rules, `validate_sql` rejects with the table-allowlist
reason exactly when the upper-cased stripped statement contains neither
`FROM TRANSACTIONS` nor `FROM CLIENT_SUMMARY` as a substring.  In
particular a `FROM` clause naming an allowed table in any letter case
(with a single separating space) passes the rule, and so does a table
name that merely extends an allowed name. -/
theorem c3_table_allowlist_amended (sql : List Char)
    (h1 : isPrefixChars "SELECT".toList (sql_upper_of sql) = true)
    (h2 : findForbidden (sql_upper_of sql) = none) :
    validate_sql sql = (false, tableMsg) ↔
      (containsSub "FROM TRANSACTIONS".toList (sql_upper_of sql) = false ∧
       containsSub "FROM CLIENT_SUMMARY".toList (sql_upper_of sql) = false) := by
  unfold validate_sql
  rw [if_neg (by rw [h1]; simp)]
  simp only [h2]
  by_cases h3 : (containsSub "FROM TRANSACTIONS".toList (sql_upper_of sql) ||
      containsSub "FROM CLIENT_SUMMARY".toList (sql_upper_of sql)) = false
  · rw [if_pos h3]
    rw [Bool.or_eq_false_iff] at h3
    exact ⟨fun _ => h3, fun _ => rfl⟩
  · rw [if_neg h3]
    constructor
    · intro hq
      by_cases h5 : (sql.count quoteChar % 2 != 0) = true
      · rw [if_pos h5] at hq
        have hx := congrArg Prod.snd hq
        exact absurd hx (by decide)
      · rw [if_neg h5] at hq
        have hx := congrArg Prod.fst hq
        simp at hx
    · intro hc
      exact absurd (by rw [hc.1, hc.2]; rfl) h3

/-- C3 (witness for the amended claim): the mixed-case statement
`SeLeCt * FrOm TrAnSaCtIoNs` is not rejected by the table rule. -/
theorem c3_table_allowlist_witness :
    ¬ validate_sql "SeLeCt * FrOm TrAnSaCtIoNs".toList = (false, tableMsg) := by
  intro hc
  have h := (c3_table_allowlist_amended "SeLeCt * FrOm TrAnSaCtIoNs".toList
    (by decide) (by decide)).mp hc
  exact absurd h.1 (by decide)

/-- C4: on an admitted statement, any driver fault is caught and turned
into a failure outcome whose error message is non-empty and whose result
list is empty; `execute_query` (a total function) never re-raises it. -/
theorem c4_driver_error_shape {V : Type} (drv : Driver V) (sql : List Char)
    (err : PyError)
    (hadm : (validate_sql sql).1 = true)
    (herr : drv.run (limited_sql_of sql) = Except.error err) :
    execute_query drv sql = failureOutcome V (pyErrorMessage err) sql ∧
    pyErrorMessage err ≠ [] ∧
    (execute_query drv sql).results = [] ∧
    (execute_query drv sql).success = false := by
  have hv := validate_sql_of_fst_true sql hadm
  have he := execute_query_err drv sql validatedMsg err hv herr
  refine ⟨he, ?_, by rw [he]; rfl, by rw [he]; rfl⟩
  cases err with
  | sqliteError m =>
    have hx : pyErrorMessage (PyError.sqliteError m) =
        'S' :: ("QL Execution Error: ".toList ++ m) := rfl
    rw [hx]
    simp
  | unexpectedError m =>
    have hx : pyErrorMessage (PyError.unexpectedError m) =
        'U' :: ("nexpected Error: ".toList ++ m) := rfl
    rw [hx]
    simp

/-- C4 (witness): executing a statement with an unknown column against a
driver that raises yields a failure outcome with empty results. -/
theorem c4_driver_error_shape_witness :
    (execute_query errDriver "SELECT foo FROM transactions".toList).success = false ∧
    (execute_query errDriver "SELECT foo FROM transactions".toList).results = [] := by
  have h := c4_driver_error_shape errDriver "SELECT foo FROM transactions".toList
    (PyError.sqliteError "no such column: foo".toList) (by decide) rfl
  exact ⟨h.2.2.2, h.2.2.1⟩

/-- C5: when the validator rejects, `execute_query` returns the failure
outcome carrying the rejection reason, the original statement and an
empty result set, and its result does not depend on the driver at all —
the data store is never consulted. -/
theorem c5_validation_rejection {V : Type} (drv drv2 : Driver V) (sql : List Char)
    (h : (validate_sql sql).1 = false) :
    execute_query drv sql =
      failureOutcome V ("SQL Validation Failed: ".toList ++ (validate_sql sql).2) sql ∧
    (execute_query drv sql).results = [] ∧
    (execute_query drv sql).success = false ∧
    execute_query drv sql = execute_query drv2 sql := by
  have hv := validate_sql_pair_of_false sql h
  have he := execute_query_invalid drv sql (validate_sql sql).2 hv
  have he2 := execute_query_invalid drv2 sql (validate_sql sql).2 hv
  exact ⟨he, by rw [he]; rfl, by rw [he]; rfl, by rw [he, he2]⟩

/-- C5 (witness): a rejected statement produces a failure outcome with
no results, independently of the driver. -/
theorem c5_validation_rejection_witness :
    (execute_query errDriver "DELETE FROM transactions".toList).success = false ∧
    (execute_query errDriver "DELETE FROM transactions".toList).results = [] := by
  have h := c5_validation_rejection errDriver emptyDriver
    "DELETE FROM transactions".toList (by decide)
  exact ⟨h.2.2.1, h.2.1⟩

/-- C8: a statement with an odd number of single-quote characters
(counted in the raw statement) is always rejected by `validate_sql`,
whatever its other content: every rule that fires earlier also rejects,
and the final admission is guarded by the quote-parity test. -/
theorem c8_odd_quotes_rejected (sql : List Char)
    (h : sql.count quoteChar % 2 = 1) :
    (validate_sql sql).1 = false := by
  unfold validate_sql
  by_cases h1 : isPrefixChars "SELECT".toList (sql_upper_of sql) = false
  · rw [if_pos h1]
  · rw [if_neg h1]
    cases hf : findForbidden (sql_upper_of sql) with
    | some src => simp only [hf]
    | none =>
      simp only [hf]
      by_cases h2 : (containsSub "FROM TRANSACTIONS".toList (sql_upper_of sql) ||
          containsSub "FROM CLIENT_SUMMARY".toList (sql_upper_of sql)) = false
      · rw [if_pos h2]
      · rw [if_neg h2, if_pos (by rw [h]; rfl)]

/-- C8 (witness): a well-formed SELECT containing one single quote is
rejected. -/
theorem c8_odd_quotes_rejected_witness :
    (validate_sql ("SELECT x FROM transactions WHERE c = ".toList ++
      [quoteChar] ++ "a".toList)).1 = false :=
  c8_odd_quotes_rejected _ (by decide)

/-- C9: an admitted statement that runs successfully and returns zero
rows yields a success outcome with row count 0, empty results and an
empty column-name list, whatever column description the cursor reports —
column names are taken from the cursor only when at least one row came
back. -/
theorem c9_empty_result {V : Type} (drv : Driver V) (sql : List Char)
    (desc : List (List Char))
    (hadm : (validate_sql sql).1 = true)
    (hrun : drv.run (limited_sql_of sql) = Except.ok (desc, ([] : List (List V)))) :
    execute_query drv sql =
      { success := true, query := sql, error := none, results := [],
        column_names := some [], row_count := some 0, limited := some false } := by
  have hv := validate_sql_of_fst_true sql hadm
  have h := execute_query_ok drv sql validatedMsg desc [] hv hrun
  rw [h]
  rfl

/-- C9 (witness): a no-rows driver produces the empty success outcome. -/
theorem c9_empty_result_witness :
    execute_query emptyDriver "SELECT * FROM transactions WHERE amt > 99999".toList =
      { success := true,
        query := "SELECT * FROM transactions WHERE amt > 99999".toList,
        error := none, results := [], column_names := some [], row_count := some 0,
        limited := some false } :=
  c9_empty_result emptyDriver _ [] (by decide) rfl

/-- C7: every success outcome of `execute_query` carries the row set
returned by the driver (as ordered column-to-value mappings), the column
names in result order, a row count equal to the number of returned rows,
and a `limited` flag that is true exactly when that count equals the cap
of 1000. -/
theorem c7_success_shape {V : Type} (drv : Driver V) (sql : List Char)
    (out : QueryOutcome V)
    (hout : execute_query drv sql = out)
    (hs : out.success = true) :
    ∃ desc rows, drv.run (limited_sql_of sql) = Except.ok (desc, rows) ∧
      out.results = rows.map (fun r => desc.zip r) ∧
      out.row_count = some out.results.length ∧
      out.results.length = rows.length ∧
      out.limited = some (out.results.length == max_results) ∧
      (out.limited = some true ↔ out.results.length = 1000) ∧
      out.column_names = some (if rows.isEmpty then [] else desc) := by
  cases hv1 : (validate_sql sql).1 with
  | false =>
    have hv := validate_sql_pair_of_false sql hv1
    have he := execute_query_invalid drv sql (validate_sql sql).2 hv
    rw [hout] at he
    rw [he] at hs
    simp [failureOutcome] at hs
  | true =>
    have hv := validate_sql_of_fst_true sql hv1
    cases hr : drv.run (limited_sql_of sql) with
    | error e =>
      have he := execute_query_err drv sql validatedMsg e hv hr
      rw [hout] at he
      rw [he] at hs
      simp [failureOutcome] at hs
    | ok pr =>
      obtain ⟨desc, rows⟩ := pr
      have he := execute_query_ok drv sql validatedMsg desc rows hv hr
      rw [hout] at he
      subst he
      refine ⟨desc, rows, rfl, rfl, rfl, by simp, rfl, ?_, rfl⟩
      simp [max_results]

/-- C7 (witness): a two-row driver yields row count 2 and an untruncated
flag. -/
theorem c7_success_shape_witness :
    (execute_query twoRowsDriver "SELECT amt FROM transactions".toList).row_count =
      some 2 ∧
    (execute_query twoRowsDriver "SELECT amt FROM transactions".toList).limited =
      some false := by
  obtain ⟨desc, rows, hr, hres, hrc, hlen, hlim, hiff, hcn⟩ :=
    c7_success_shape twoRowsDriver "SELECT amt FROM transactions".toList
      (execute_query twoRowsDriver "SELECT amt FROM transactions".toList) rfl
      (by decide)
  exact ⟨by rw [hrc]; rfl, by rw [hlim]; rfl⟩

/-- Modelled from the words of claim C6: strip surrounding whitespace
and a single trailing statement terminator.  Used only to compare the
claim's reading with the source's behaviour. -/
def claimStripOneTerminator (sql : List Char) : List Char :=
  if (pyStrip sql).getLast? == some ';' then
    pyStrip (pyStrip sql).dropLast
  else
    pyStrip sql

/-- C6 (counterexample): on `SELECT * FROM transactions;;` the source's
`sql.rstrip(';').strip()` removes the whole trailing run of semicolons,
while stripping a single trailing terminator, as the claim states, would
leave one semicolon in place. -/
theorem c6_strip_counterexample :
    sql_clean_of "SELECT * FROM transactions;;".toList =
      "SELECT * FROM transactions".toList ∧
    claimStripOneTerminator "SELECT * FROM transactions;;".toList =
      "SELECT * FROM transactions;".toList ∧
    sql_clean_of "SELECT * FROM transactions;;".toList ≠
      claimStripOneTerminator "SELECT * FROM transactions;;".toList := by
  exact ⟨by decide, by decide, by decide⟩

/-- C6 (amended): on admission `execute_query` removes the whole maximal
run of trailing `;` characters and then the surrounding whitespace,
leaving the statement text otherwise unchanged: the statement splits as
leading whitespace, the cleaned core (which neither starts nor ends with
whitespace, and does not end with `;` unless whitespace separated that
`;` from the trailing run), trailing whitespace, and the removed run of
semicolons. -/
theorem c6_strip_amended (sql : List Char) :
    ∃ w1 w2 semis, sql = w1 ++ (sql_clean_of sql ++ (w2 ++ semis)) ∧
      (∀ c ∈ w1, isPySpace c = true) ∧
      (∀ c ∈ w2, isPySpace c = true) ∧
      (∀ c ∈ semis, c = ';') ∧
      (∀ c t, sql_clean_of sql = c :: t → isPySpace c = false) ∧
      (∀ l c, sql_clean_of sql = l ++ [c] → isPySpace c = false) ∧
      (w2 = [] → ∀ l c, sql_clean_of sql = l ++ [c] → c = ';' → False) :=
  sqlClean_decomp sql

/-- C1: for an admitted statement containing no `LIMIT` (checked
case-insensitively on the statement text, which is what the source's
substring test amounts to), `execute_query` appends ` LIMIT 1000` to the
cleaned statement before execution, so — for a driver that honours a
trailing `LIMIT 1000` — at most 1000 rows come back; for an admitted
statement that already carries `LIMIT`, the cleaned statement is handed
to the driver untouched and the cap append is not triggered a second
time, whatever the caller's limit value. -/
theorem c1_limit_cap {V : Type} (drv : Driver V) (sql : List Char)
    (hdrv : ∀ q desc rows,
      drv.run (q ++ " LIMIT 1000".toList) = Except.ok (desc, rows) →
      rows.length ≤ 1000)
    (hadm : (validate_sql sql).1 = true) :
    (containsSub "LIMIT".toList (pyUpper sql) = false →
      limited_sql_of sql = sql_clean_of sql ++ " LIMIT 1000".toList ∧
      (execute_query drv sql).results.length ≤ 1000 ∧
      ((execute_query drv sql).success = true →
        (execute_query drv sql).row_count =
          some (execute_query drv sql).results.length)) ∧
    (containsSub "LIMIT".toList (pyUpper sql) = true →
      limited_sql_of sql = sql_clean_of sql) := by
  have hclean := containsSub_LIMIT_clean sql
  have hv := validate_sql_of_fst_true sql hadm
  constructor
  · intro hno
    have hnoc : containsSub "LIMIT".toList (pyUpper (sql_clean_of sql)) = false := by
      rw [hclean, hno]
    have hlim : limited_sql_of sql = sql_clean_of sql ++ " LIMIT 1000".toList := by
      unfold limited_sql_of
      rw [if_pos hnoc, List.append_assoc]
      have hx : " LIMIT ".toList ++ (toString max_results).toList =
          " LIMIT 1000".toList := by decide
      rw [hx]
    refine ⟨hlim, ?_, ?_⟩
    · cases hr : drv.run (limited_sql_of sql) with
      | error e =>
        have he := execute_query_err drv sql validatedMsg e hv hr
        rw [he]
        simp [failureOutcome]
      | ok pr =>
        obtain ⟨desc, rows⟩ := pr
        have he := execute_query_ok drv sql validatedMsg desc rows hv hr
        rw [he]
        show (rows.map (fun r => desc.zip r)).length ≤ 1000
        rw [List.length_map]
        apply hdrv (sql_clean_of sql) desc rows
        rw [← hlim]
        exact hr
    · intro hsucc
      cases hr : drv.run (limited_sql_of sql) with
      | error e =>
        have he := execute_query_err drv sql validatedMsg e hv hr
        rw [he] at hsucc
        simp [failureOutcome] at hsucc
      | ok pr =>
        obtain ⟨desc, rows⟩ := pr
        have he := execute_query_ok drv sql validatedMsg desc rows hv hr
        rw [he]
  · intro hyes
    have hyesc : containsSub "LIMIT".toList (pyUpper (sql_clean_of sql)) = true := by
      rw [hclean, hyes]
    unfold limited_sql_of
    rw [if_neg (by rw [hyesc]; simp)]

/-- C1 (witness): a capped statement gets ` LIMIT 1000` appended and a
statement with its own `LIMIT 3` is passed through unchanged. -/
theorem c1_limit_cap_witness :
    limited_sql_of "SELECT * FROM transactions".toList =
      "SELECT * FROM transactions LIMIT 1000".toList ∧
    limited_sql_of "SELECT * FROM transactions LIMIT 3".toList =
      sql_clean_of "SELECT * FROM transactions LIMIT 3".toList := by
  have hd : ∀ q desc rows, emptyDriver.run (q ++ " LIMIT 1000".toList) =
      Except.ok (desc, rows) → rows.length ≤ 1000 := by
    intro q desc rows h
    simp only [emptyDriver] at h
    rw [Except.ok.injEq, Prod.mk.injEq] at h
    obtain ⟨h1, h2⟩ := h
    rw [← h2]
    simp
  have h1 := (c1_limit_cap emptyDriver "SELECT * FROM transactions".toList hd
    (by decide)).1 (by decide)
  have h2 := (c1_limit_cap emptyDriver "SELECT * FROM transactions LIMIT 3".toList hd
    (by decide)).2 (by decide)
  refine ⟨?_, h2⟩
  rw [h1.1]
  decide

theorem rstrip_snoc_pos {p : Char → Bool} (y : List Char) {x : Char}
    (hx : p x = true) : pyRstripWith p (y ++ [x]) = pyRstripWith p y := by
  unfold pyRstripWith
  rw [List.reverse_append]
  simp [List.dropWhile_cons, hx]

theorem dropWhile_length_le (p : Char → Bool) (l : List Char) :
    (l.dropWhile p).length ≤ l.length := by
  induction l with
  | nil => simp
  | cons a l ih =>
    by_cases h : p a = true
    · rw [List.dropWhile_cons, if_pos h]
      exact Nat.le_succ_of_le ih
    · rw [List.dropWhile_cons, if_neg h]

theorem rstrip_length_le (p : Char → Bool) (l : List Char) :
    (pyRstripWith p l).length ≤ l.length := by
  unfold pyRstripWith
  rw [List.length_reverse]
  calc (l.reverse.dropWhile p).length ≤ l.reverse.length :=
        dropWhile_length_le p l.reverse
    _ = l.length := List.length_reverse l

theorem rstrip_idem_of_rstrip_eq {U : List Char}
    (hs : pyRstripWith isPySpace U = U) :
    pyRstripWith isPySpace (U.dropWhile isPySpace) = U.dropWhile isPySpace := by
  obtain ⟨b, hb, hbP⟩ := rstrip_decomp isPySpace (U.dropWhile isPySpace)
  rcases List.eq_nil_or_concat b with rfl | ⟨b', x, hbx⟩
  · rw [List.append_nil] at hb
    exact hb.symm
  · exfalso
    rw [List.concat_eq_append] at hbx
    subst hbx
    have hxw : isPySpace x = true := hbP x (by simp)
    have hU : U = (U.takeWhile isPySpace ++
        (pyRstripWith isPySpace (U.dropWhile isPySpace) ++ b')) ++ [x] := by
      conv_lhs => rw [← List.takeWhile_append_dropWhile isPySpace U, hb]
      simp [List.append_assoc]
    have h1 : pyRstripWith isPySpace U =
        pyRstripWith isPySpace (U.takeWhile isPySpace ++
          (pyRstripWith isPySpace (U.dropWhile isPySpace) ++ b')) := by
      conv_lhs => rw [hU]
      exact rstrip_snoc_pos _ hxw
    have hlen : (pyRstripWith isPySpace U).length ≤
        (U.takeWhile isPySpace ++
          (pyRstripWith isPySpace (U.dropWhile isPySpace) ++ b')).length := by
      rw [h1]
      exact rstrip_length_le _ _
    rw [hs] at hlen
    have hlen2 : U.length = (U.takeWhile isPySpace ++
        (pyRstripWith isPySpace (U.dropWhile isPySpace) ++ b')).length + 1 := by
      conv_lhs => rw [hU]
      simp only [List.length_append, List.length_cons, List.length_nil]
    omega

theorem sql_upper_snoc (s : List Char) (c : Char)
    (hcw : isPySpace c = false) (hcu : Char.toUpper c = c)
    (hs : pyRstripWith isPySpace (pyUpper s) = pyUpper s) :
    sql_upper_of (s ++ [c]) = sql_upper_of s ++ [c] := by
  unfold sql_upper_of pyStrip pyLstripWith
  rw [pyUpper_append]
  have hc1 : pyUpper [c] = [c] := by simp [pyUpper, hcu]
  rw [hc1, dropWhile_snoc _ hcw, rstrip_snoc _ hcw]
  rw [rstrip_idem_of_rstrip_eq hs]

theorem pySpaceChars_ws : ∀ w ∈ pySpaceChars, isPySpace w = true := by decide

theorem kw_any_snoc (kw : List Char) (u : List Char) (c : Char)
    (hc : isPySpace c = false) :
    (pySpaceChars.any fun w => containsSub (kw ++ [w]) (u ++ [c])) =
    (pySpaceChars.any fun w => containsSub (kw ++ [w]) u) := by
  apply list_any_congr
  intro w hw
  apply containsSub_snoc_ne
  · simp
  · rw [List.getLast?_concat]
    intro hgl
    injection hgl with hwc
    have hwt := pySpaceChars_ws w hw
    rw [hwc] at hwt
    exact absurd hwt (by simp [hc])

theorem validate_fst_snoc_aux (s : List Char) (c : Char)
    (hs : pyRstripWith isPySpace (pyUpper s) = pyUpper s)
    (hc : c = ';' ∨ c = dquoteChar) :
    (validate_sql (s ++ [c])).1 = (validate_sql s).1 := by
  have hcw : isPySpace c = false := by rcases hc with rfl | rfl <;> decide
  have hcu : Char.toUpper c = c := by rcases hc with rfl | rfl <;> decide
  have hcq : (c == quoteChar) = false := by rcases hc with rfl | rfl <;> decide
  have hup : sql_upper_of (s ++ [c]) = sql_upper_of s ++ [c] :=
    sql_upper_snoc s c hcw hcu hs
  have hpre : isPrefixChars "SELECT".toList (sql_upper_of s ++ [c]) =
      isPrefixChars "SELECT".toList (sql_upper_of s) := by
    apply isPrefixChars_append_inv
    intro ch hch hm
    simp at hch
    subst hch
    rcases hc with rfl | rfl <;> exact absurd hm (by decide)
  have htab1 : containsSub "FROM TRANSACTIONS".toList (sql_upper_of s ++ [c]) =
      containsSub "FROM TRANSACTIONS".toList (sql_upper_of s) := by
    apply containsSub_snoc_ne _ _ _ (by decide)
    rcases hc with rfl | rfl <;> decide
  have htab2 : containsSub "FROM CLIENT_SUMMARY".toList (sql_upper_of s ++ [c]) =
      containsSub "FROM CLIENT_SUMMARY".toList (sql_upper_of s) := by
    apply containsSub_snoc_ne _ _ _ (by decide)
    rcases hc with rfl | rfl <;> decide
  have hpat : findForbidden (sql_upper_of s ++ [c]) =
      findForbidden (sql_upper_of s) := by
    unfold findForbidden
    rw [list_find?_congr forbidden_patterns
      (fun p => p.matchesIn (sql_upper_of s ++ [c]))
      (fun p => p.matchesIn (sql_upper_of s)) ?_]
    intro p hp
    fin_cases hp
    case _ => exact kw_any_snoc "DROP".toList _ c hcw
    case _ => exact kw_any_snoc "DELETE".toList _ c hcw
    case _ => exact kw_any_snoc "INSERT".toList _ c hcw
    case _ => exact kw_any_snoc "UPDATE".toList _ c hcw
    case _ => exact kw_any_snoc "ALTER".toList _ c hcw
    case _ => exact kw_any_snoc "CREATE".toList _ c hcw
    case _ => exact kw_any_snoc "EXEC".toList _ c hcw
    case _ => exact kw_any_snoc "UNION".toList _ c hcw
    case _ =>
      apply containsSub_snoc_ne _ _ _ (by decide)
      rcases hc with rfl | rfl <;> decide
    case _ =>
      apply containsSub_snoc_ne _ _ _ (by decide)
      rcases hc with rfl | rfl <;> decide
    case _ =>
      apply containsSub_snoc_ne _ _ _ (by decide)
      rcases hc with rfl | rfl <;> decide
    case _ =>
      apply containsSub_snoc_ne _ _ _ (by decide)
      rcases hc with rfl | rfl <;> decide
  have hcnt : (s ++ [c]).count quoteChar = s.count quoteChar := by
    rw [List.count_append]
    simp [List.count_cons, hcq]
  unfold validate_sql
  rw [hup, hpre, hpat, htab1, htab2, hcnt]

/-- The even-quoted multi-statement string from claim C10. -/
def multiStmt : List Char :=
  "SELECT * FROM transactions; SELECT * FROM transactions".toList

/-- C10: `validate_sql` never rejects a statement merely for containing
a semicolon or a double quote — the `suspicious_chars` list is computed
but never consulted.  Concretely: appending `;` or `"` to any statement
whose upper-cased text has no trailing whitespace leaves the admission
bit unchanged; the even-quoted multi-statement string is admitted; and
when the driver then faults on it, the failure surfaces only as a driver
execution error. -/
theorem c10_suspicious_chars_unused {V : Type} (drv : Driver V) (err : PyError)
    (h : drv.run (limited_sql_of multiStmt) = Except.error err) :
    (validate_sql multiStmt).1 = true ∧
    (∀ s : List Char, pyRstripWith isPySpace (pyUpper s) = pyUpper s →
      (validate_sql (s ++ [';'])).1 = (validate_sql s).1 ∧
      (validate_sql (s ++ [dquoteChar])).1 = (validate_sql s).1) ∧
    execute_query drv multiStmt = failureOutcome V (pyErrorMessage err) multiStmt := by
  refine ⟨by decide, ?_, ?_⟩
  · intro s hs
    exact ⟨validate_fst_snoc_aux s ';' hs (Or.inl rfl),
      validate_fst_snoc_aux s dquoteChar hs (Or.inr rfl)⟩
  · have hv := validate_sql_of_fst_true multiStmt (by decide)
    exact execute_query_err drv multiStmt validatedMsg err hv h

/-- C10 (witness): the multi-statement string is admitted and an
erroring driver turns it into an execution failure, not a fault. -/
theorem c10_suspicious_chars_unused_witness :
    (validate_sql multiStmt).1 = true ∧
    (execute_query errDriver multiStmt).success = false := by
  have h := c10_suspicious_chars_unused errDriver
    (PyError.sqliteError "no such column: foo".toList) rfl
  exact ⟨h.1, by rw [h.2.2]; rfl⟩

end FinAssistant
